import Mathlib

/-!
Verification development for the coupling-analysis engine
(extrator_codigo.py, main.py, analisador_zhang.py, analisador_dou.py,
analisador_coupling_briand.py).

Each definition is a shallow embedding of the corresponding Python
function; machine floats are modelled by exact reals or rationals,
Python integer division by natural floor division, and a Python
exception by an `Option` result where the claims depend on it.
-/

namespace Acopla

/-! ## String helpers

Python's `c in alvo` (substring test) and `alvo.endswith(c)` used by
`ExtratorCodigo._analisar_chamadas` (extrator_codigo.py lines 94-95),
modelled over character lists. -/

/-- Character-list version of "the first list is a leading block of the
second", used to build the substring test. -/
def ehPrefixoDe : List Char → List Char → Bool
  | [], _ => true
  | _ :: _, [] => false
  | a :: resto, b :: cauda => a == b && ehPrefixoDe resto cauda

/-- Python `agulha in palheiro`: the first list occurs contiguously
inside the second (the empty needle always matches). -/
def contemSublista (agulha : List Char) : List Char → Bool
  | [] => ehPrefixoDe agulha []
  | b :: cauda => ehPrefixoDe agulha (b :: cauda) || contemSublista agulha cauda

/-- Python `alvo.endswith(chamada)` on character lists. -/
def terminaCom (alvo chamada : List Char) : Bool :=
  ehPrefixoDe chamada.reverse alvo.reverse

/-- The matching test of `_analisar_chamadas` (extrator_codigo.py line 95):
`funcao_chamada in nome_alvo or nome_alvo.endswith(funcao_chamada)`. -/
def nomeCorresponde (chamada alvo : String) : Bool :=
  contemSublista chamada.toList alvo.toList || terminaCom alvo.toList chamada.toList

/-! ## Entity extraction and the call graph

A `FuncInfo` is one entry of `ExtratorCodigo.funcoes`: the qualified
name together with the callee names extracted (by
`_extrair_nome_chamada`) from the call sites inside the body, one list
entry per call site. -/

/-- One function entity: its qualified name and the callee name of each
call site found in its body. -/
structure FuncInfo where
  nome : String
  sites : List String
deriving DecidableEq, Repr

/-- The set `ExtratorCodigo.chamadas[f]` (extrator_codigo.py lines
84-97) as a duplicate-free-by-membership list: every known target name
matched by at least one call site of `f`, the caller itself excluded. -/
def analisarChamadas (funcoes : List FuncInfo) (f : FuncInfo) : List String :=
  (funcoes.map (fun g => g.nome)).filter
    (fun alvo => f.sites.any (fun c => nomeCorresponde c alvo) && alvo != f.nome)

/-- `obter_matriz_adjacencia` (main.py lines 132-147): cell (i, j) is
incremented once per element of the callee set, so with pairwise
distinct function names it is 1 when the j-th name is among the i-th
function's matched callees and 0 otherwise. -/
def obterMatrizAdjacencia (funcoes : List FuncInfo)
    (i j : Fin funcoes.length) : ℕ :=
  if (funcoes.get j).nome ∈ analisarChamadas funcoes (funcoes.get i) then 1 else 0

/-- `AnalisadorZhang._contar_acoplas` value `M` (analisador_zhang.py
lines 25-31): the sum of the off-diagonal entries, halved with Python
`int` truncation (floor, since the sum is non-negative). -/
def contarAcoplasM (n : ℕ) (matriz : Fin n → Fin n → ℕ) : ℕ :=
  (∑ i, ∑ j, if i = j then 0 else matriz i j) / 2

/-- `M_diretos` of `_contar_acoplas`: the off-diagonal sum without the
halving. -/
def contarAcoplasMDiretos (n : ℕ) (matriz : Fin n → Fin n → ℕ) : ℕ :=
  ∑ i, ∑ j, if i = j then 0 else matriz i j

/-- The degree row sums `graus` of `_contar_acoplas` (analisador_zhang.py
line 31): row sums of the full adjacency matrix, diagonal included. -/
def grausZhang (n : ℕ) (matriz : Fin n → Fin n → ℕ) (i : Fin n) : ℕ :=
  ∑ j, matriz i j

/-! ## Entropy model (analisador_zhang.py, `_calcular_entropy_model`) -/

/-- One loop iteration value `termo` of `_calcular_entropy_model`
(analisador_zhang.py lines 38-47): coefficient times negated base-10
logarithm under the three-way positivity guard, 0 otherwise.
`math.log10` is modelled by `Real.logb 10`. -/
noncomputable def termoEntropia (n : ℕ) (matriz : Fin n → Fin n → ℕ)
    (p : Fin n → ℝ) (i : Fin n) : ℝ :=
  if 0 < grausZhang n matriz i ∧ 0 < p i ∧ 0 < contarAcoplasM n matriz then
    -(((grausZhang n matriz i : ℝ) * p i) / (2 * (contarAcoplasM n matriz : ℝ)))
      * Real.logb 10 ((grausZhang n matriz i : ℝ) / (2 * (contarAcoplasM n matriz : ℝ)))
  else 0

/-- `H_total` accumulated by the loop of `_calcular_entropy_model`:
a left fold over the entity indices in order, starting at 0.0. -/
noncomputable def entropiaH (n : ℕ) (matriz : Fin n → Fin n → ℕ)
    (p : Fin n → ℝ) : ℝ :=
  (List.finRange n).foldl (fun ac i => ac + termoEntropia n matriz p i) 0

/-! ## Judgment-matrix model (analisador_zhang.py,
`_calcular_judgment_matrix_model`) -/

/-- The judgment matrix `A` (analisador_zhang.py lines 75-91): 1 on the
diagonal; off the diagonal the edge weight divided by the caller's full
row sum when the weight is positive (with the source's inner guard for
a zero row sum), else 1. -/
noncomputable def matrizJulgamento (n : ℕ) (matriz : Fin n → Fin n → ℕ)
    (i j : Fin n) : ℝ :=
  if i = j then 1
  else if 0 < matriz i j then
    (if 0 < ∑ k, matriz i k then (matriz i j : ℝ) / ((∑ k, matriz i k : ℕ) : ℝ) else 1)
  else 1

/-- Result record of `_calcular_judgment_matrix_model`: `lambda_max`,
`sorting_vector` and `C_judgment`. -/
structure SaidaJulgamento (n : ℕ) where
  lambdaMax : ℝ
  sortingVector : Fin n → ℝ
  cJudgment : ℝ

/-- `_calcular_judgment_matrix_model` (analisador_zhang.py lines
74-117).  The `numpy.linalg.eig` call together with the rest of the
`try` body is abstracted by `eig`: `some (lambdaMax, vMax)` when the
decomposition succeeds with dominant eigenvalue and eigenvector,
`none` when anything in the `try` block raises.  The `except` branch
(lines 114-117) zeroes `lambda_max` and `C_judgment` and returns a
uniform vector; it catches every exception, so the embedding is a total
function and nothing propagates to the caller. -/
noncomputable def calcularJudgmentMatrixModel (n : ℕ)
    (matriz : Fin n → Fin n → ℕ) (p : Fin n → ℝ)
    (eig : Option (ℝ × (Fin n → ℝ))) : SaidaJulgamento n :=
  match eig with
  | some (lmax, vmax) =>
      let W : Fin n → ℝ := fun i => vmax i / (∑ k, vmax k)
      { lambdaMax := lmax
        sortingVector := W
        cJudgment :=
          (∑ i, p i * W i * (∑ j, matrizJulgamento n matriz i j)) / (n : ℝ) }
  | none =>
      { lambdaMax := 0
        sortingVector := fun _ => 1 / (n : ℝ)
        cJudgment := 0 }

/-! ## VRM model (analisador_dou.py)

An `InstanciaVRM` packages the constructor arguments of `AnalisadorDou`:
the variable key list (`self.variaveis`, the dictionary keys in
insertion order), the use frequency of each variable
(`variaveis_dict[var]["frequencia"]`), the dependency sets
(`self.var_dependencies`, a set modelled as a list whose membership is
what matters) and the manual coefficients. -/

structure InstanciaVRM where
  variaveis : List String
  freq : String → ℕ
  deps : String → List String
  manualCoef : String → ℝ

/-- Pointwise update of a depth table. -/
def atualiza (prof : String → ℕ) (v : String) (d : ℕ) : String → ℕ :=
  fun w => if w = v then d else prof w

/-- State threaded through the BFS of `_calcular_profundidades_arvore`:
the depth table, the visited list and the queue. -/
structure EstadoBFS where
  prof : String → ℕ
  visitados : List String
  fila : List String

/-- The inner loop of the BFS (analisador_dou.py lines 101-117): with
`va` the dequeued variable and `pa` its depth read at dequeue time,
scan the variable list in order; every variable whose dependency set
contains `va` is either discovered (depth `pa + 1`, marked visited,
enqueued) or, if already visited, its depth is raised to the maximum of
its current depth and `pa + 1`. -/
def passoDependentes (depsDe : String → List String) (va : String) (pa : ℕ) :
    List String → EstadoBFS → EstadoBFS
  | [], st => st
  | v :: resto, st =>
      passoDependentes depsDe va pa resto
        (if va ∈ depsDe v then
          (if v ∈ st.visitados then
            { st with prof := atualiza st.prof v (max (st.prof v) (pa + 1)) }
          else
            { prof := atualiza st.prof v (pa + 1)
              visitados := st.visitados ++ [v]
              fila := st.fila ++ [v] })
        else st)

/-- The outer `while fila` loop of `_calcular_profundidades_arvore`
(analisador_dou.py lines 97-117), driven by fuel.  Each unit of fuel
pays for one dequeue; `_calcular_profundidades_arvore` enqueues each
variable at most once, so `variaveis.length` units of fuel reproduce
the Python loop, which always terminates. -/
def lacoBFS (inst : InstanciaVRM) : ℕ → EstadoBFS → String → ℕ
  | 0, st => st.prof
  | fuel + 1, st =>
      match st.fila with
      | [] => st.prof
      | va :: resto =>
          lacoBFS inst fuel
            (passoDependentes inst.deps va (st.prof va) inst.variaveis
              { st with fila := resto })

/-- The root set `nos_raiz` (analisador_dou.py lines 87-91): variables
whose dependency set is empty.  (`var not in self.var_dependencies or
len(...) == 0` both mean an empty dependency list here.) -/
def nosRaiz (inst : InstanciaVRM) : List String :=
  inst.variaveis.filter (fun v => inst.deps v = [])

/-- `_calcular_profundidades_arvore` (analisador_dou.py lines 75-119):
all depths start at 0, the roots are pre-visited and enqueued, then the
BFS loop runs to completion. -/
def calcularProfundidadesArvore (inst : InstanciaVRM) : String → ℕ :=
  lacoBFS inst inst.variaveis.length
    { prof := fun _ => 0
      visitados := nosRaiz inst
      fila := nosRaiz inst }

/-- The hierarchical coefficient assignment of `_calcular_coeficientes`
(analisador_dou.py lines 64-73):
`(dep_i + 1) * (1.0 / (2.0 ** (dep_i - 1)))`, where the exponent
`dep_i - 1` is a Python int (so -1 at a root) — there is no special
case for `dep_i = 0`. -/
noncomputable def hcValues (inst : InstanciaVRM) (v : String) : ℝ :=
  ((calcularProfundidadesArvore inst v : ℝ) + 1)
    * (1 / (2 : ℝ) ^ ((calcularProfundidadesArvore inst v : ℤ) - 1))

/-- The manual coefficient of `_calcular_coeficientes` (line 35):
`manual_coefficients.get(var, 1.0)` is the supplied map, total here. -/
noncomputable def mcValues (inst : InstanciaVRM) (v : String) : ℝ :=
  inst.manualCoef v

/-- The population mean of the use frequencies (analisador_dou.py line
46).  `numpy.mean` of an empty array is NaN in the source; the real
embedding gives 0/0 = 0 there, a corner never consumed because the
aggregate below fails first on an empty population. -/
noncomputable def mediaFrequencias (inst : InstanciaVRM) : ℝ :=
  (inst.variaveis.map (fun v => (inst.freq v : ℝ))).sum / (inst.variaveis.length : ℝ)

/-- The population deviation `desvio` (analisador_dou.py lines 50-51):
`sqrt(soma_quadrados / N) if N > 0 else 0.0`. -/
noncomputable def desvioVRM (inst : InstanciaVRM) : ℝ :=
  if 0 < inst.variaveis.length then
    Real.sqrt ((inst.variaveis.map
      (fun v => ((inst.freq v : ℝ) - mediaFrequencias inst) ^ 2)).sum
        / (inst.variaveis.length : ℝ))
  else 0

/-- The standard coefficient `SC(i) = Xi + desvio` (analisador_dou.py
lines 59-62). -/
noncomputable def scValues (inst : InstanciaVRM) (v : String) : ℝ :=
  (inst.freq v : ℝ) + desvioVRM inst

/-- `acoplamento_total` of `_calcular_acoplamento_vrm` (analisador_dou.py
lines 124-137): the sum over the variable list of `mc + sc + hc`. -/
noncomputable def acoplamentoTotal (inst : InstanciaVRM) : ℝ :=
  (inst.variaveis.map
    (fun v => mcValues inst v + scValues inst v + hcValues inst v)).sum

/-- Python float division, which raises `ZeroDivisionError` on a zero
denominator: `none` models the exception. -/
noncomputable def divPy (a : ℝ) (b : ℕ) : Option ℝ :=
  if b = 0 then none else some (a / (b : ℝ))

/-- `C_medio = acoplamento_total / self.n` (analisador_dou.py line 149):
unlike its neighbours `HC_medio` and `SC_medio`, this division carries
no `if self.n > 0` guard, so it is the bare Python division. -/
noncomputable def cMedioVRM (inst : InstanciaVRM) : Option ℝ :=
  divPy (acoplamentoTotal inst) inst.variaveis.length

/-- `HC_medio` (analisador_dou.py line 150), with its guard. -/
noncomputable def hcMedioVRM (inst : InstanciaVRM) : ℝ :=
  if 0 < inst.variaveis.length then
    (inst.variaveis.map (fun v => hcValues inst v)).sum / (inst.variaveis.length : ℝ)
  else 0

/-- Reachability along dependency edges from the roots: a root is
reachable, and a variable of the table one of whose dependencies is
reachable is reachable.  This is exactly the set of variables the BFS
of `_calcular_profundidades_arvore` can ever visit. -/
inductive Alcancavel (inst : InstanciaVRM) : String → Prop
  | raiz (v : String) : v ∈ inst.variaveis → inst.deps v = [] → Alcancavel inst v
  | passo (u v : String) : Alcancavel inst u → v ∈ inst.variaveis →
      u ∈ inst.deps v → Alcancavel inst v

/-- Loop invariant of the BFS: every visited variable is reachable, the
queue holds only visited variables, and every unreachable variable
still has its initial depth 0. -/
def InvBFS (inst : InstanciaVRM) (st : EstadoBFS) : Prop :=
  (∀ v ∈ st.visitados, Alcancavel inst v) ∧
  (∀ v ∈ st.fila, v ∈ st.visitados) ∧
  (∀ w, ¬ Alcancavel inst w → st.prof w = 0)

/-! ## Elementary-coupling model (analisador_coupling_briand.py)

The AST fragment relevant to `CouplingVisitor`: Python expressions
(names, attribute access, calls, other constants/expressions rendered
textually) and the statements that matter to the visitor (function
definitions with a body, bare expression statements). Python
expressions cannot contain a `FunctionDef`, which the split into
`ExprPy` and `StmtPy` reflects. -/

inductive ExprPy where
  | nomeE (id : String)
  | atributo (valor : ExprPy) (campo : String)
  | chamada (func : ExprPy) (args : List ExprPy)
  | constanteE (texto : String)
deriving Repr

inductive StmtPy where
  | defFuncao (nome : String) (corpo : List StmtPy)
  | expressao (e : ExprPy)
deriving Repr

/-- Textual fallback for a non-Name argument, standing for
`ast.dump(arg)` (analisador_coupling_briand.py line 73).  Only its
existence matters to the claims, never its exact shape. -/
def despejo : ExprPy → String
  | .nomeE id => "Name(" ++ id ++ ")"
  | .atributo v campo => "Attribute(" ++ despejo v ++ "," ++ campo ++ ")"
  | .chamada f args =>
      "Call(" ++ despejo f ++ ","
        ++ String.join (args.attach.map (fun a => despejo a.1)) ++ ")"
  | .constanteE texto => "Constant(" ++ texto ++ ")"
termination_by e => sizeOf e
decreasing_by
  all_goals simp_wf
  all_goals first
    | omega
    | (have h := List.sizeOf_lt_of_mem a.2; omega)

/-- The argument representation of `visit_Call` (lines 68-73): the bare
identifier for a Name argument, the textual dump otherwise. -/
def nomeArg : ExprPy → String
  | .nomeE id => id
  | e => despejo e

/-- One record of `CouplingVisitor.calls`:
`(current_function, called, arg_names)`. -/
structure Chamada where
  source : String
  target : String
  args : List String
deriving DecidableEq, Repr

/-- `CouplingVisitor` on an expression (analisador_coupling_briand.py
lines 64-75): `visit_Call` appends a record only when
`current_function` is set and the callee is a bare `ast.Name`, then
recurses into the callee expression and the arguments
(`generic_visit`).  Attribute access and names record nothing of their
own. -/
def visitaExpr (atual : Option String) : ExprPy → List Chamada
  | .nomeE _ => []
  | .constanteE _ => []
  | .atributo v _ => visitaExpr atual v
  | .chamada f args =>
      (match atual, f with
        | some cf, .nomeE id => [{ source := cf, target := id, args := args.map nomeArg }]
        | _, _ => [])
      ++ visitaExpr atual f
      ++ (args.attach.map (fun a => visitaExpr atual a.1)).flatten
termination_by e => sizeOf e
decreasing_by
  all_goals simp_wf
  all_goals first
    | omega
    | (have h := List.sizeOf_lt_of_mem a.2; omega)

/-- `CouplingVisitor` on a statement: `visit_FunctionDef` (lines 58-62)
sets `current_function` to the simple name for the body and restores it
afterwards; an expression statement just visits its expression. -/
def visitaStmt (atual : Option String) : StmtPy → List Chamada
  | .defFuncao nome corpo =>
      (corpo.attach.map (fun s => visitaStmt (some nome) s.1)).flatten
  | .expressao e => visitaExpr atual e
termination_by s => sizeOf s
decreasing_by
  all_goals simp_wf
  all_goals first
    | omega
    | (have h := List.sizeOf_lt_of_mem s.2; omega)

/-- The full visitor pass of `analyze_source` (lines 92-94): visit the
module body with no current function. -/
def chamadasModulo (corpo : List StmtPy) : List Chamada :=
  (corpo.map (visitaStmt none)).flatten

/-- `data_usage_count` of `analyze_source` (lines 96-100): how many
times an identifier occurs as a passed argument across every recorded
call site. -/
def contagemUso (chamadas : List Chamada) (d : String) : ℕ :=
  (chamadas.map (fun c => c.args.count d)).sum

/-- One elementary coupling record (class `ElementaryCoupling`), with
`value = C * PC * N` already computed (`compute_value`, lines 27-30).
With the default weights of `_build_ec_from_call` (lines 138-139),
`C = PC = 1.0`. -/
structure ECoup where
  source : String
  target : String
  dataName : String
  valorEC : ℚ
deriving DecidableEq, Repr

/-- The elementary-coupling list built by `analyze_source` (lines
102-108): one record per argument of each recorded call, valued
`C[d] * PC[d] * N[d] = 1 * 1 * N[d]` under the default weights. -/
def elementares (chamadas : List Chamada) : List ECoup :=
  chamadas.flatMap (fun c =>
    c.args.map (fun d =>
      { source := c.source, target := c.target, dataName := d
        valorEC := 1 * 1 * (contagemUso chamadas d : ℚ) }))

/-- `aggregate_by_module` followed by `ModuleCoupling.total_coupling`
(lines 150-161 and 43-45): the elementary couplings are grouped by
their `source` — the caller — and summed; a function that is only ever
a callee accumulates nothing. -/
def acoplamentoModulo (chamadas : List Chamada) (m : String) : ℚ :=
  (((elementares chamadas).filter (fun ec => ec.source == m)).map
    (fun ec => ec.valorEC)).sum

/-! ## Concrete instances used by counterexamples and witnesses -/

/-- Two functions in one module: `m.f` whose body calls `g` twice and
`m.g` with an empty body. -/
def funcoesFG : List FuncInfo :=
  [{ nome := "m.f", sites := ["g", "g"] }, { nome := "m.g", sites := [] }]

/-- The same two functions with the two call sites removed. -/
def funcoesFGsem : List FuncInfo :=
  [{ nome := "m.f", sites := [] }, { nome := "m.g", sites := [] }]

/-- Four variables of one function with dependencies
`a` on `b` and `c`, `c` on `b`, `d` on `a`, in table order
`b, a, c, d`; the longest path to `d` has length 3 (`b, c, a, d`). -/
def instCadeia : InstanciaVRM where
  variaveis := ["b", "a", "c", "d"]
  freq := fun _ => 1
  deps := fun v =>
    if v = "a" then ["b", "c"]
    else if v = "c" then ["b"]
    else if v = "d" then ["a"] else []
  manualCoef := fun _ => 1

/-- An analysis run with an empty variable table. -/
def instVazia : InstanciaVRM where
  variaveis := []
  freq := fun _ => 0
  deps := fun _ => []
  manualCoef := fun _ => 1

/-- Two variables that depend on each other and on nothing else: a pure
dependency cycle, unreachable from any root. -/
def instCiclo : InstanciaVRM where
  variaveis := ["aa", "bb"]
  freq := fun _ => 1
  deps := fun v => if v = "aa" then ["bb"] else if v = "bb" then ["aa"] else []
  manualCoef := fun _ => 1

/-- A 2-by-2 adjacency matrix with a single directed edge of weight 3:
its off-diagonal total 3 is odd, so `M = 1` and `n_0 = 3 > 2M`. -/
def matrizImpar : Fin 2 → Fin 2 → ℕ := ![![0, 3], ![0, 0]]

/-- A 2-by-2 adjacency matrix with one undirected edge written in both
directions: even total, zero diagonal. -/
def matrizPar : Fin 2 → Fin 2 → ℕ := ![![0, 1], ![1, 0]]

/-- The call-site list of the `mdc`/`mmc` scenario: `mmc` calls `mdc`
once passing `a` and `b`. -/
def chamadasMdcMmc : List Chamada :=
  [{ source := "mmc", target := "mdc", args := ["a", "b"] }]

/-! ## Lemmas about the BFS depth labeling -/

/-- The inner dependent scan never touches the depth of a variable with
an empty dependency set. -/
lemma prof_passo_raiz (depsDe : String → List String) (va : String) (pa : ℕ)
    (r : String) (hr : depsDe r = []) :
    ∀ (l : List String) (st : EstadoBFS),
      (passoDependentes depsDe va pa l st).prof r = st.prof r := by
  intro l
  induction l with
  | nil => intro st; rfl
  | cons v resto ih =>
      intro st
      rw [passoDependentes, ih]
      by_cases hv : va ∈ depsDe v
      · have hrv : r ≠ v := by
          intro h
          rw [← h, hr] at hv
          exact (List.not_mem_nil va) hv
        by_cases hvis : v ∈ st.visitados <;> simp [hv, hvis, atualiza, hrv]
      · simp [hv]

/-- The BFS loop never touches the depth of a variable with an empty
dependency set. -/
lemma prof_laco_raiz (inst : InstanciaVRM) (r : String) (hr : inst.deps r = []) :
    ∀ (fuel : ℕ) (st : EstadoBFS), lacoBFS inst fuel st r = st.prof r := by
  intro fuel
  induction fuel with
  | zero => intro st; rfl
  | succ f ih =>
      intro st
      cases hf : st.fila with
      | nil => simp only [lacoBFS, hf]
      | cons va resto =>
          simp only [lacoBFS, hf]
          rw [ih, prof_passo_raiz inst.deps va (st.prof va) r hr]

/-- The inner dependent scan preserves the BFS invariant when the
dequeued variable is reachable and the scanned list stays inside the
variable table. -/
lemma passo_inv (inst : InstanciaVRM) (va : String) (pa : ℕ)
    (hva : Alcancavel inst va) :
    ∀ (l : List String), (∀ v ∈ l, v ∈ inst.variaveis) →
      ∀ (st : EstadoBFS), InvBFS inst st →
        InvBFS inst (passoDependentes inst.deps va pa l st) := by
  intro l
  induction l with
  | nil => intro _ st h; exact h
  | cons v resto ih =>
      intro hl st hInv
      rw [passoDependentes]
      refine ih (fun x hx => hl x (List.mem_cons_of_mem v hx)) _ ?_
      by_cases hv : va ∈ inst.deps v
      · have hmem : v ∈ inst.variaveis := hl v (List.mem_cons_self v resto)
        have halc : Alcancavel inst v := Alcancavel.passo va v hva hmem hv
        by_cases hvis : v ∈ st.visitados
        · simp only [hv, hvis, if_true, if_pos]
          refine ⟨hInv.1, hInv.2.1, ?_⟩
          intro w hw
          have hwv : w ≠ v := fun h => hw (h ▸ halc)
          simp [atualiza, hwv]
          exact hInv.2.2 w hw
        · simp only [hv, hvis, if_true, if_false]
          refine ⟨?_, ?_, ?_⟩
          · intro x hx
            rcases List.mem_append.mp hx with hx | hx
            · exact hInv.1 x hx
            · rw [List.mem_singleton.mp hx]; exact halc
          · intro x hx
            rcases List.mem_append.mp hx with hx | hx
            · exact List.mem_append_left _ (hInv.2.1 x hx)
            · exact List.mem_append_right _ hx
          · intro w hw
            have hwv : w ≠ v := fun h => hw (h ▸ halc)
            simp [atualiza, hwv]
            exact hInv.2.2 w hw
      · simp only [hv, if_false]
        exact hInv

/-- Through the whole BFS loop, an unreachable variable keeps depth 0. -/
lemma laco_inv (inst : InstanciaVRM) :
    ∀ (fuel : ℕ) (st : EstadoBFS), InvBFS inst st →
      ∀ w, ¬ Alcancavel inst w → lacoBFS inst fuel st w = 0 := by
  intro fuel
  induction fuel with
  | zero => intro st hInv w hw; exact hInv.2.2 w hw
  | succ f ih =>
      intro st hInv w hw
      rw [lacoBFS]
      cases hf : st.fila with
      | nil => exact hInv.2.2 w hw
      | cons va resto =>
          have hva : Alcancavel inst va := by
            refine hInv.1 va (hInv.2.1 va ?_)
            rw [hf]; exact List.mem_cons_self va resto
          refine ih _ ?_ w hw
          refine passo_inv inst va (st.prof va) hva inst.variaveis
            (fun _ h => h) _ ?_
          exact ⟨hInv.1, fun v hv => hInv.2.1 v (by rw [hf]; exact List.mem_cons_of_mem va hv), hInv.2.2⟩

/-- The initial BFS state satisfies the invariant. -/
lemma inv_inicial (inst : InstanciaVRM) :
    InvBFS inst
      { prof := fun _ => 0, visitados := nosRaiz inst, fila := nosRaiz inst } := by
  refine ⟨?_, fun v hv => hv, fun _ _ => rfl⟩
  intro v hv
  have h := List.mem_filter.mp hv
  exact Alcancavel.raiz v h.1 (by simpa using h.2)

/-- A depth-0 variable receives hierarchical coefficient 2: the formula
is applied with exponent -1 and no root guard. -/
lemma hc_em_zero (inst : InstanciaVRM) (v : String)
    (h : calcularProfundidadesArvore inst v = 0) : hcValues inst v = 2 := by
  unfold hcValues
  rw [h]
  norm_num

/-! ## Claim theorems -/

/-- C2, counterexample: the spec states `HC_i = 1` when `dep_i = 0`
(a guarded root case), but `_calcular_coeficientes` applies the formula
unguarded: the root variable `b` of `instCadeia` has depth 0 and
receives `HC = (0 + 1) * 1 / 2^(0 - 1) = 2`, not 1. -/
theorem c2_contraexemplo :
    calcularProfundidadesArvore instCadeia "b" = 0 ∧
      hcValues instCadeia "b" = 2 ∧ hcValues instCadeia "b" ≠ 1 := by
  have h0 : calcularProfundidadesArvore instCadeia "b" = 0 := by decide
  have h2 : hcValues instCadeia "b" = 2 := hc_em_zero instCadeia "b" h0
  exact ⟨h0, h2, by rw [h2]; norm_num⟩

/-- C2, amended: for `dep_i > 0` the hierarchical coefficient follows
the spec formula `(dep_i + 1) * 2^(-(dep_i - 1))`, but there is no
guard at the root: a depth-0 variable gets the same formula with
exponent -1, which yields `HC_i = 2`. -/
theorem c2_emendado (inst : InstanciaVRM) (v : String) :
    (0 < calcularProfundidadesArvore inst v →
      hcValues inst v =
        ((calcularProfundidadesArvore inst v : ℝ) + 1)
          * (1 / (2 : ℝ) ^ ((calcularProfundidadesArvore inst v : ℤ) - 1))) ∧
    (calcularProfundidadesArvore inst v = 0 → hcValues inst v = 2) := by
  exact ⟨fun _ => rfl, hc_em_zero inst v⟩

/-- C2, witness: the depth-1 variable `c` of `instCadeia` gets
`HC = (1 + 1) * 2^0 = 2` by the formula, and the root `b` gets 2. -/
theorem c2_emendado_testemunha :
    hcValues instCadeia "c" = 2 ∧ hcValues instCadeia "b" = 2 := by
  constructor
  · have h1 : calcularProfundidadesArvore instCadeia "c" = 1 := by decide
    have h := (c2_emendado instCadeia "c").1 (by rw [h1]; norm_num)
    rw [h1] at h
    rw [h]
    norm_num
  · exact (c2_emendado instCadeia "b").2 (by decide)

/-- C3, counterexample: in `instCadeia` the variable `d` has the single
predecessor `a` (which is reachable from the root `b`), `a` ends with
depth 2, yet `d` also ends with depth 2 — not `2 + 1 = 3` as the
longest-path labeling demands: the BFS max-update on `a` arrives after
`d` was discovered through the shorter path and is never propagated. -/
theorem c3_contraexemplo :
    instCadeia.deps "d" = ["a"] ∧
      Alcancavel instCadeia "a" ∧
      calcularProfundidadesArvore instCadeia "a" = 2 ∧
      calcularProfundidadesArvore instCadeia "d" = 2 ∧
      calcularProfundidadesArvore instCadeia "d" ≠
        calcularProfundidadesArvore instCadeia "a" + 1 := by
  refine ⟨by decide, ?_, by decide, by decide, by decide⟩
  exact Alcancavel.passo "b" "a"
    (Alcancavel.raiz "b" (by decide) (by decide)) (by decide) (by decide)

/-- C3, amended: the depth labeling does assign 0 to every variable
with no dependencies (a root); the equality "depth = maximum over
predecessors' depths + 1" does not hold in general because the BFS
max-update is not propagated to already-processed dependents. -/
theorem c3_emendado (inst : InstanciaVRM) (v : String)
    (h : inst.deps v = []) : calcularProfundidadesArvore inst v = 0 := by
  unfold calcularProfundidadesArvore
  rw [prof_laco_raiz inst v h]

/-- C3, witness: the root `b` of `instCadeia` is labeled 0. -/
theorem c3_emendado_testemunha :
    calcularProfundidadesArvore instCadeia "b" = 0 :=
  c3_emendado instCadeia "b" (by decide)

/-- C4: with an empty variable table, `_calcular_acoplamento_vrm`
evaluates `C_medio = acoplamento_total / self.n` with `n = 0` and no
guard — a `ZeroDivisionError` in Python, `none` in the embedding — so
the metric computation raises instead of degrading to a neutral
value. -/
theorem c4_falha : cMedioVRM instVazia = none := by
  simp [cMedioVRM, divPy, instVazia]

/-- C7: whenever the eigen-decomposition step of
`_calcular_judgment_matrix_model` fails (any exception in the `try`
block, modelled by `none`), the `except` branch returns `lambda_max = 0`,
the uniform priority vector `1/n` and a judgment coupling of 0, and the
function is total — nothing propagates to the caller. -/
theorem c7_fallback (n : ℕ) (matriz : Fin n → Fin n → ℕ) (p : Fin n → ℝ) :
    calcularJudgmentMatrixModel n matriz p none =
      { lambdaMax := 0, sortingVector := fun _ => 1 / (n : ℝ), cJudgment := 0 } :=
  rfl

/-- C9: a variable unreachable from the roots along dependency edges —
in particular every member of a pure dependency cycle — keeps its
initial depth 0, the depth of a true root, and therefore receives the
same hierarchical coefficient a root receives, namely 2. -/
theorem c9_inalcancavel (inst : InstanciaVRM) (v : String)
    (h : ¬ Alcancavel inst v) :
    calcularProfundidadesArvore inst v = 0 ∧ hcValues inst v = 2 := by
  have h0 : calcularProfundidadesArvore inst v = 0 :=
    laco_inv inst inst.variaveis.length _ (inv_inicial inst) v h
  exact ⟨h0, hc_em_zero inst v h0⟩

/-- C9, witness: in the two-variable cycle `aa ↔ bb` neither variable
is reachable, and `aa` ends with depth 0 and hierarchical coefficient 2. -/
theorem c9_inalcancavel_testemunha :
    calcularProfundidadesArvore instCiclo "aa" = 0 ∧ hcValues instCiclo "aa" = 2 := by
  refine c9_inalcancavel instCiclo "aa" ?_
  have geral : ∀ w, ¬ Alcancavel instCiclo w := by
    intro w hw
    induction hw with
    | raiz v hv hd =>
        have hv2 : v = "aa" ∨ v = "bb" := by
          simpa [instCiclo] using hv
        rcases hv2 with h | h
        · rw [h] at hd; simp [instCiclo] at hd
        · rw [h] at hd; simp [instCiclo] at hd
    | passo u v _ _ _ ih => exact ih
  exact geral "aa"

/-- C1, counterexample: `m.f` calls `g` twice, yet the adjacency entry
(f, g) is 1, not 2 — `ExtratorCodigo.chamadas` is a set of callee
names, so call multiplicity is discarded — and `M` is 0 both with and
without the two call sites (the single unit entry is halved away by the
integer division), not larger by 1. -/
theorem c1_contraexemplo :
    obterMatrizAdjacencia funcoesFG ⟨0, by decide⟩ ⟨1, by decide⟩ = 1 ∧
      contarAcoplasM 2 (obterMatrizAdjacencia funcoesFG) = 0 ∧
      contarAcoplasM 2 (obterMatrizAdjacencia funcoesFGsem) = 0 := by
  decide

/-- C1, amended: when `f`'s two call sites both carry a callee name
that matches only `g`, the adjacency entry (f, g) equals 1 (the callee
set collapses the two sites), and in the two-function tree `M` equals 0
both with and without those call sites — removing them does not change
`M`. -/
theorem c1_emendado (nf ng c : String)
    (h1 : nomeCorresponde c ng = true)
    (h2 : nomeCorresponde c nf = false)
    (h3 : nf ≠ ng) :
    obterMatrizAdjacencia
        [{ nome := nf, sites := [c, c] }, { nome := ng, sites := [] }]
        (0 : Fin 2) (1 : Fin 2) = 1 ∧
      contarAcoplasM 2 (obterMatrizAdjacencia
        [{ nome := nf, sites := [c, c] }, { nome := ng, sites := [] }]) = 0 ∧
      contarAcoplasM 2 (obterMatrizAdjacencia
        [{ nome := nf, sites := [] }, { nome := ng, sites := [] }]) = 0 := by
  have hbne : (ng != nf) = true := by
    simp [bne_iff_ne]
    exact Ne.symm h3
  have hA : analisarChamadas
      [{ nome := nf, sites := [c, c] }, { nome := ng, sites := [] }]
      { nome := nf, sites := [c, c] } = [ng] := by
    simp [analisarChamadas, h1, h2, hbne]
  have hB : ∀ gs : List String, analisarChamadas
      [{ nome := nf, sites := gs }, { nome := ng, sites := [] }]
      { nome := ng, sites := [] } = [] := by
    intro gs
    simp [analisarChamadas]
  have hC : analisarChamadas
      [{ nome := nf, sites := [] }, { nome := ng, sites := [] }]
      { nome := nf, sites := [] } = [] := by
    simp [analisarChamadas]
  refine ⟨?_, ?_, ?_⟩
  · show (if ng ∈ analisarChamadas
        [{ nome := nf, sites := [c, c] }, { nome := ng, sites := [] }]
        { nome := nf, sites := [c, c] } then 1 else 0) = 1
    rw [hA]
    simp
  · have e01 : obterMatrizAdjacencia
        [{ nome := nf, sites := [c, c] }, { nome := ng, sites := [] }]
        (0 : Fin 2) (1 : Fin 2) = 1 := by
      show (if ng ∈ analisarChamadas
          [{ nome := nf, sites := [c, c] }, { nome := ng, sites := [] }]
          { nome := nf, sites := [c, c] } then 1 else 0) = 1
      rw [hA]; simp
    have e10 : obterMatrizAdjacencia
        [{ nome := nf, sites := [c, c] }, { nome := ng, sites := [] }]
        (1 : Fin 2) (0 : Fin 2) = 0 := by
      show (if nf ∈ analisarChamadas
          [{ nome := nf, sites := [c, c] }, { nome := ng, sites := [] }]
          { nome := ng, sites := [] } then 1 else 0) = 0
      rw [hB]; simp
    show ((∑ i : Fin 2, ∑ j : Fin 2, if i = j then 0
        else obterMatrizAdjacencia
          [{ nome := nf, sites := [c, c] }, { nome := ng, sites := [] }] i j) / 2 : ℕ) = 0
    rw [Fin.sum_univ_two, Fin.sum_univ_two, Fin.sum_univ_two]
    show ((0 + obterMatrizAdjacencia
          [{ nome := nf, sites := [c, c] }, { nome := ng, sites := [] }] (0 : Fin 2) (1 : Fin 2))
        + (obterMatrizAdjacencia
          [{ nome := nf, sites := [c, c] }, { nome := ng, sites := [] }] (1 : Fin 2) (0 : Fin 2) + 0)) / 2 = 0
    rw [e01, e10]
  · have e01 : obterMatrizAdjacencia
        [{ nome := nf, sites := [] }, { nome := ng, sites := [] }]
        (0 : Fin 2) (1 : Fin 2) = 0 := by
      show (if ng ∈ analisarChamadas
          [{ nome := nf, sites := [] }, { nome := ng, sites := [] }]
          { nome := nf, sites := [] } then 1 else 0) = 0
      rw [hC]; simp
    have e10 : obterMatrizAdjacencia
        [{ nome := nf, sites := [] }, { nome := ng, sites := [] }]
        (1 : Fin 2) (0 : Fin 2) = 0 := by
      show (if nf ∈ analisarChamadas
          [{ nome := nf, sites := [] }, { nome := ng, sites := [] }]
          { nome := ng, sites := [] } then 1 else 0) = 0
      rw [hB]; simp
    show ((∑ i : Fin 2, ∑ j : Fin 2, if i = j then 0
        else obterMatrizAdjacencia
          [{ nome := nf, sites := [] }, { nome := ng, sites := [] }] i j) / 2 : ℕ) = 0
    rw [Fin.sum_univ_two, Fin.sum_univ_two, Fin.sum_univ_two]
    show ((0 + obterMatrizAdjacencia
          [{ nome := nf, sites := [] }, { nome := ng, sites := [] }] (0 : Fin 2) (1 : Fin 2))
        + (obterMatrizAdjacencia
          [{ nome := nf, sites := [] }, { nome := ng, sites := [] }] (1 : Fin 2) (0 : Fin 2) + 0)) / 2 = 0
    rw [e01, e10]

/-- C1, witness: the amended statement instantiated at the concrete
tree with `m.f` calling `g` twice. -/
theorem c1_emendado_testemunha :
    nomeCorresponde "g" "m.g" = true ∧
      nomeCorresponde "g" "m.f" = false ∧
      ("m.f" : String) ≠ "m.g" ∧
      (obterMatrizAdjacencia
          [{ nome := "m.f", sites := ["g", "g"] }, { nome := "m.g", sites := [] }]
          (0 : Fin 2) (1 : Fin 2) = 1 ∧
        contarAcoplasM 2 (obterMatrizAdjacencia
          [{ nome := "m.f", sites := ["g", "g"] }, { nome := "m.g", sites := [] }]) = 0 ∧
        contarAcoplasM 2 (obterMatrizAdjacencia
          [{ nome := "m.f", sites := [] }, { nome := "m.g", sites := [] }]) = 0) :=
  ⟨by decide, by decide, by decide,
    c1_emendado "m.f" "m.g" "g" (by decide) (by decide) (by decide)⟩


/-- A left fold that adds the image of each element equals the starting
value plus the list sum of the images. -/
lemma foldl_soma {n : ℕ} (l : List (Fin n)) (f : Fin n → ℝ) :
    ∀ a0 : ℝ, l.foldl (fun ac i => ac + f i) a0 = a0 + (l.map f).sum := by
  induction l with
  | nil => intro a0; simp
  | cons i resto ih =>
      intro a0
      rw [List.foldl_cons, ih, List.map_cons, List.sum_cons]
      ring

/-- C5: the accumulated entropy `H_total` equals the sum over all
entities of the per-entity term; each term follows the spec formula
`-((n_i * p_i) / (2M)) * log10(n_i / (2M))` when `n_i > 0`, `p_i > 0`
and `M > 0` and is 0 otherwise; and `n_i` is the adjacency row sum. -/
theorem c5_entropia (n : ℕ) (matriz : Fin n → Fin n → ℕ) (p : Fin n → ℝ) :
    entropiaH n matriz p = ∑ i, termoEntropia n matriz p i ∧
      (∀ i, termoEntropia n matriz p i =
        (if 0 < grausZhang n matriz i ∧ 0 < p i ∧ 0 < contarAcoplasM n matriz then
          -(((grausZhang n matriz i : ℝ) * p i) / (2 * (contarAcoplasM n matriz : ℝ)))
            * Real.logb 10
              ((grausZhang n matriz i : ℝ) / (2 * (contarAcoplasM n matriz : ℝ)))
        else 0)) ∧
      (∀ i, grausZhang n matriz i = ∑ j, matriz i j) := by
  refine ⟨?_, fun i => rfl, fun i => rfl⟩
  rw [entropiaH, foldl_soma (List.finRange n) (termoEntropia n matriz p) 0,
    Fin.sum_univ_def, zero_add]

/-- C6, counterexample: with a single weight-3 edge the off-diagonal
total 3 is odd, `M = int(3/2) = 1`, and entity 0 has `n_0 = 3 > 2M`, so
`log10(n_0 / 2M) > 0` and the entropy term of entity 0 is strictly
negative even though every `p_i` lies in [0, 1]. -/
theorem c6_contraexemplo :
    termoEntropia 2 matrizImpar (fun _ => 1) (0 : Fin 2) < 0 := by
  have hg : grausZhang 2 matrizImpar (0 : Fin 2) = 3 := by decide
  have hM : contarAcoplasM 2 matrizImpar = 1 := by decide
  rw [termoEntropia, hg, hM]
  rw [if_pos (by norm_num)]
  push_cast
  norm_num
  have hlog : 0 < Real.logb 10 ((3 : ℝ) / 2) :=
    Real.logb_pos (by norm_num) (by norm_num)
  nlinarith [hlog]

/-- C6, amended: entropy terms are non-negative for every probability
assignment valued in [0, 1] provided the adjacency matrix has a zero
diagonal and an even off-diagonal total (then `2M` equals that total
and every row sum `n_i` is at most `2M`).  The claim as stated fails
only because the floor in `M = int(total/2)` can discard half a unit of
an odd total. -/
theorem c6_emendado (n : ℕ) (matriz : Fin n → Fin n → ℕ) (p : Fin n → ℝ)
    (hdiag : ∀ i, matriz i i = 0)
    (hpar : 2 ∣ contarAcoplasMDiretos n matriz)
    (hp : ∀ i, 0 ≤ p i ∧ p i ≤ 1) :
    ∀ i, 0 ≤ termoEntropia n matriz p i := by
  intro i
  rw [termoEntropia]
  by_cases h : 0 < grausZhang n matriz i ∧ 0 < p i ∧ 0 < contarAcoplasM n matriz
  · rw [if_pos h]
    obtain ⟨hgi, hpi, hMi⟩ := h
    have hrow : grausZhang n matriz i ≤ contarAcoplasMDiretos n matriz := by
      rw [grausZhang, contarAcoplasMDiretos]
      have hlinha : ∑ j, matriz i j = ∑ j, (if i = j then 0 else matriz i j) := by
        refine Finset.sum_congr rfl ?_
        intro j _
        by_cases hij : i = j
        · rw [if_pos hij, ← hij, hdiag i]
        · rw [if_neg hij]
      rw [hlinha]
      exact Finset.single_le_sum
        (f := fun i2 => ∑ j, (if i2 = j then 0 else matriz i2 j))
        (fun _ _ => Nat.zero_le _) (Finset.mem_univ i)
    have h2M : 2 * contarAcoplasM n matriz = contarAcoplasMDiretos n matriz := by
      have hpar2 : 2 ∣ (∑ i, ∑ j, if i = j then 0 else matriz i j) := hpar
      rw [contarAcoplasM, contarAcoplasMDiretos]
      omega
    have hleN : grausZhang n matriz i ≤ 2 * contarAcoplasM n matriz := by omega
    have h2Mpos : (0 : ℝ) < 2 * (contarAcoplasM n matriz : ℝ) := by
      have : (0 : ℝ) < (contarAcoplasM n matriz : ℝ) := by exact_mod_cast hMi
      linarith
    have hle : (grausZhang n matriz i : ℝ) ≤ 2 * (contarAcoplasM n matriz : ℝ) := by
      exact_mod_cast hleN
    have hx1 : (grausZhang n matriz i : ℝ) / (2 * (contarAcoplasM n matriz : ℝ)) ≤ 1 :=
      (div_le_one h2Mpos).mpr hle
    have hx0 : 0 ≤ (grausZhang n matriz i : ℝ) / (2 * (contarAcoplasM n matriz : ℝ)) :=
      div_nonneg (Nat.cast_nonneg _) (le_of_lt h2Mpos)
    have hlog : Real.logb 10
        ((grausZhang n matriz i : ℝ) / (2 * (contarAcoplasM n matriz : ℝ))) ≤ 0 :=
      Real.logb_nonpos (by norm_num) hx0 hx1
    have hcoef : 0 ≤ ((grausZhang n matriz i : ℝ) * p i)
        / (2 * (contarAcoplasM n matriz : ℝ)) :=
      div_nonneg (mul_nonneg (Nat.cast_nonneg _) (hp i).1) (le_of_lt h2Mpos)
    nlinarith [mul_nonneg hcoef (neg_nonneg.mpr hlog)]
  · rw [if_neg h]

/-- C6, witness: the amended statement at the 2-by-2 matrix with one
undirected unit edge and probabilities 1/2. -/
theorem c6_emendado_testemunha :
    0 ≤ termoEntropia 2 matrizPar (fun _ => 1 / 2) (0 : Fin 2) :=
  c6_emendado 2 matrizPar (fun _ => 1 / 2) (by decide) (by decide)
    (fun _ => by norm_num) (0 : Fin 2)


/-- When every call whose source fails the predicate passes no `d`
argument, the global reuse count of `d` reduces to the calls selected
by the predicate. -/
lemma contagem_por_filtro (d : String) (p : Chamada → Bool) :
    ∀ L : List Chamada, (∀ c ∈ L, p c = false → d ∉ c.args) →
      contagemUso L d = ((L.filter p).map (fun c => c.args.count d)).sum := by
  intro L
  induction L with
  | nil => intro _; rfl
  | cons c t ih =>
      intro h
      have ht := ih (fun x hx hpx => h x (List.mem_cons_of_mem c hx) hpx)
      rw [contagemUso] at ht ⊢
      rw [List.map_cons, List.sum_cons, List.filter_cons]
      cases hpc : p c with
      | false =>
          have hd : d ∉ c.args := h c (List.mem_cons_self c t) hpc
          rw [List.count_eq_zero_of_not_mem hd, if_neg (by simp [hpc]), ht, zero_add]
      | true =>
          rw [if_pos rfl, List.map_cons, List.sum_cons, ht]

/-- Filtering the elementary couplings by a source name is the same as
building them from the calls with that source: every coupling record
inherits the source of the call that produced it. -/
lemma filtrar_elementares (L : List Chamada) (m : String) :
    ∀ l : List Chamada,
      ((l.flatMap (fun c => c.args.map (fun d =>
          ({ source := c.source, target := c.target, dataName := d,
             valorEC := 1 * 1 * (contagemUso L d : ℚ) } : ECoup)))).filter
        (fun ec => ec.source == m))
      = (l.filter (fun c => c.source == m)).flatMap (fun c => c.args.map (fun d =>
          ({ source := c.source, target := c.target, dataName := d,
             valorEC := 1 * 1 * (contagemUso L d : ℚ) } : ECoup))) := by
  intro l
  induction l with
  | nil => rfl
  | cons c t ih =>
      rw [List.flatMap_cons, List.filter_append, ih, List.filter_cons]
      have hcomp : ((fun ec : ECoup => ec.source == m) ∘ (fun d =>
          ({ source := c.source, target := c.target, dataName := d,
             valorEC := 1 * 1 * (contagemUso L d : ℚ) } : ECoup)))
          = fun _ => (c.source == m) := rfl
      by_cases hpc : (c.source == m) = true
      · rw [if_pos hpc, List.flatMap_cons]
        congr 1
        rw [List.filter_map, hcomp, hpc]
        simp
      · have hf : (c.source == m) = false := by
          simpa using hpc
        rw [if_neg hpc, List.filter_map, hcomp, hf]
        simp

/-- C8: in any analyzed set whose only call sourced at `mmc` is
`mdc(a, b)` and where no other call site passes `a` or `b`, the reuse
counts are `N[a] = N[b] = 1`, the elementary couplings of `mmc` are
exactly `EC[a]` and `EC[b]` with value `1 * 1 * 1 = 1.0` under the
default unit weights, the per-caller coupling is `MC(mmc) = 2.0`, and
nothing is summed into `mdc` as callee: if `mdc` sources no call,
`MC(mdc) = 0`. -/
theorem c8_briand (L : List Chamada)
    (hum : L.filter (fun c => c.source == "mmc")
      = [{ source := "mmc", target := "mdc", args := ["a", "b"] }])
    (hab : ∀ c ∈ L, c.source ≠ "mmc" → "a" ∉ c.args ∧ "b" ∉ c.args) :
    contagemUso L "a" = 1 ∧ contagemUso L "b" = 1 ∧
      ((elementares L).filter (fun ec => ec.source == "mmc"))
        = [{ source := "mmc", target := "mdc", dataName := "a", valorEC := 1 },
           { source := "mmc", target := "mdc", dataName := "b", valorEC := 1 }] ∧
      acoplamentoModulo L "mmc" = 2 ∧
      ((∀ c ∈ L, c.source ≠ "mdc") → acoplamentoModulo L "mdc" = 0) := by
  have hpa : ∀ c ∈ L, ((fun c => c.source == "mmc") c) = false → "a" ∉ c.args := by
    intro c hc hf
    exact (hab c hc (by simpa using hf)).1
  have hpb : ∀ c ∈ L, ((fun c => c.source == "mmc") c) = false → "b" ∉ c.args := by
    intro c hc hf
    exact (hab c hc (by simpa using hf)).2
  have ca : contagemUso L "a" = 1 := by
    rw [contagem_por_filtro "a" (fun c => c.source == "mmc") L hpa, hum]
    rfl
  have cb : contagemUso L "b" = 1 := by
    rw [contagem_por_filtro "b" (fun c => c.source == "mmc") L hpb, hum]
    rfl
  have hfe : (elementares L).filter (fun ec => ec.source == "mmc")
      = [{ source := "mmc", target := "mdc", dataName := "a", valorEC := 1 },
         { source := "mmc", target := "mdc", dataName := "b", valorEC := 1 }] := by
    rw [elementares, filtrar_elementares L "mmc" L, hum]
    simp [ca, cb]
  refine ⟨ca, cb, hfe, ?_, ?_⟩
  · rw [acoplamentoModulo, hfe]
    norm_num
  · intro hmdc
    have hfil : L.filter (fun c => c.source == "mdc") = [] := by
      rw [List.filter_eq_nil_iff]
      intro c hc
      simpa using hmdc c hc
    rw [acoplamentoModulo, elementares, filtrar_elementares L "mdc" L, hfil]
    rfl

/-- C8, witness: the amended scenario at the one-call list where `mmc`
calls `mdc(a, b)`. -/
theorem c8_briand_testemunha :
    (chamadasMdcMmc.filter (fun c => c.source == "mmc")
      = [{ source := "mmc", target := "mdc", args := ["a", "b"] }]) ∧
      (contagemUso chamadasMdcMmc "a" = 1 ∧ contagemUso chamadasMdcMmc "b" = 1 ∧
        ((elementares chamadasMdcMmc).filter (fun ec => ec.source == "mmc"))
          = [{ source := "mmc", target := "mdc", dataName := "a", valorEC := 1 },
             { source := "mmc", target := "mdc", dataName := "b", valorEC := 1 }] ∧
        acoplamentoModulo chamadasMdcMmc "mmc" = 2 ∧
        ((∀ c ∈ chamadasMdcMmc, c.source ≠ "mdc") →
          acoplamentoModulo chamadasMdcMmc "mdc" = 0)) :=
  ⟨by decide, c8_briand chamadasMdcMmc (by decide) (by decide)⟩

/-- With no enclosing function definition, the visitor records nothing:
`visit_Call` requires a truthy `current_function`. -/
theorem visita_none_vazia : ∀ (e : ExprPy), visitaExpr none e = []
  | .nomeE _ => by rw [visitaExpr]
  | .constanteE _ => by rw [visitaExpr]
  | .atributo v _ => by
      rw [visitaExpr]
      exact visita_none_vazia v
  | .chamada f args => by
      have hA : visitaExpr none f = [] := visita_none_vazia f
      cases f <;> simp [visitaExpr, hA] <;> exact fun a ha => visita_none_vazia a
termination_by e => sizeOf e
decreasing_by
  all_goals simp_wf
  all_goals first
    | omega
    | (have h2 := List.sizeOf_lt_of_mem ha; omega)

/-- C10: the elementary-coupling visitor records a call only inside a
function definition with a bare-name callee: any module-level call
records nothing (appending a module-level expression statement leaves
the call list, every reuse count `N[d]` and every per-caller coupling
`MC(m)` unchanged), and a call through attribute access adds no record
of its own beyond what its sub-expressions record. -/
theorem c10_visitante :
    (∀ e : ExprPy, visitaExpr none e = []) ∧
      (∀ (corpo : List StmtPy) (e : ExprPy),
        chamadasModulo (corpo ++ [StmtPy.expressao e]) = chamadasModulo corpo ∧
          (∀ d, contagemUso (chamadasModulo (corpo ++ [StmtPy.expressao e])) d
            = contagemUso (chamadasModulo corpo) d) ∧
          (∀ m, acoplamentoModulo (chamadasModulo (corpo ++ [StmtPy.expressao e])) m
            = acoplamentoModulo (chamadasModulo corpo) m)) ∧
      (∀ (atual : Option String) (b : ExprPy) (campo : String) (args : List ExprPy),
        visitaExpr atual (ExprPy.chamada (ExprPy.atributo b campo) args) =
          visitaExpr atual (ExprPy.atributo b campo)
            ++ (args.map (visitaExpr atual)).flatten) := by
  have happ : ∀ (corpo : List StmtPy) (e : ExprPy),
      chamadasModulo (corpo ++ [StmtPy.expressao e]) = chamadasModulo corpo := by
    intro corpo e
    rw [chamadasModulo, chamadasModulo, List.map_append, List.flatten_append]
    simp [visitaStmt, visita_none_vazia e]
  refine ⟨visita_none_vazia,
    fun corpo e => ⟨happ corpo e, fun d => by rw [happ corpo e],
      fun m => by rw [happ corpo e]⟩, ?_⟩
  intro atual b campo args
  cases atual <;> simp [visitaExpr, List.attach_map_val]

end Acopla
